import Mathlib

/-!
# Supply-Chain Cost Optimisation System — verification of spec claims

A shallow embedding, over exact rationals, of the numeric and stateful kernels
of the four pipeline stages:

* `backend/agents/forecast/agent.py` — `wape`, the `p90 = p50 + 1.28 * std`
  construction and the clamping applied when `ForecastResult` rows are built;
* `backend/agents/inventory/agent.py` — `compute_eoq`, `compute_safety_stock`,
  `compute_rop` and the per-row computation of `run_inventory_policy`;
* `backend/agents/optimizer/agent.py` — the allocation rows built by
  `_build_and_solve` from a solved decision variable;
* `backend/agents/scraper/agent.py` — the dedup/insert loop of
  `run_scraper_job` over an explicit offer store;
* the shared `try/except: rollback; status := "failed"; commit; raise`
  stage-runner discipline, as an explicit session state machine.

Python floats are modelled as exact rationals.  The two transcendental
library calls, `math.sqrt` and `scipy.stats.norm.ppf`, are modelled as
oracle arguments: the caller passes the value the float library returned,
and each theorem constrains that argument by the defining property of the
call it stands for (`0 ≤ s` and `s^2 = v`, or explicit rational brackets).
Python's `round(x, d)` (banker's rounding) is modelled exactly by `pyRound`.
-/

/-- Round-half-to-even on rationals: the tie-breaking rule of Python's
built-in `round`.  Returns the nearest integer, ties going to the even one. -/
def rhe (q : ℚ) : ℤ :=
  if q - ⌊q⌋ < 1/2 then ⌊q⌋
  else if 1/2 < q - ⌊q⌋ then ⌊q⌋ + 1
  else if ⌊q⌋ % 2 = 0 then ⌊q⌋ else ⌊q⌋ + 1

/-- Python's `round(x, d)` on exact rationals. -/
def pyRound (d : ℕ) (x : ℚ) : ℚ := (rhe (x * 10 ^ d) : ℚ) / 10 ^ d

/-! ## Forecast agent (`backend/agents/forecast/agent.py`) -/

/-- Source `wape` (lines 44–49): `Σ|a−f| / Σ|a|`, returning `0.0` when `Σ|a| = 0`. -/
def wape (actual forecast : List ℚ) : ℚ :=
  let total_actual := (actual.map (fun a => |a|)).sum
  if total_actual = 0 then 0
  else (List.zipWith (fun a f => |a - f|) actual forecast).sum / total_actual

/-- Line 265: `p90 = p50 + 1.28 * std` (per step). -/
def p90_of (p50 std : ℚ) : ℚ := p50 + 128/100 * std

/-- Line 287: the `p50` stored on a `ForecastResult` row is `max(0.0, float(p50[i]))`. -/
def persist_p50 (x : ℚ) : ℚ := max 0 x

/-- Line 288: the `p90` stored on a `ForecastResult` row is `max(0.0, float(p90[i]))`. -/
def persist_p90 (x : ℚ) : ℚ := max 0 x

/-- Line 95 (`_fit_arima`): `std = np.maximum(0, (ci_upper - p50) / 1.28)`, per step. -/
def arima_std_step (ci_upper p50 : ℚ) : ℚ := max 0 ((ci_upper - p50) / (128/100))

/-- Line 121 (`_fit_prophet`): `std = np.maximum(0, (upper - p50) / 1.28)`, per step. -/
def prophet_std_step (upper p50 : ℚ) : ℚ := max 0 ((upper - p50) / (128/100))

/-! ## Inventory agent (`backend/agents/inventory/agent.py`) -/

/-- Source `compute_eoq` (lines 46–61).  `sqrt_2dsh` is the oracle value of
`math.sqrt(2 * demand_annual * setup_cost / holding_cost_annual)`; it is only
reached (and only constrained by theorems) when the guard fails. -/
def compute_eoq (demand_annual setup_cost holding_cost_annual : ℚ) (sqrt_2dsh : ℚ) : ℚ :=
  if holding_cost_annual ≤ 0 ∨ demand_annual ≤ 0 then max 1 demand_annual
  else max 1 (pyRound 1 sqrt_2dsh)

/-- Source `compute_safety_stock` (lines 64–101).  `z` is the oracle value of
`norm.ppf(service_level)`, and `sigma_lt` the oracle value of
`math.sqrt(demand_std^2 * L + demand_std^2 * sigma_L^2)` (the source uses
`demand_std^2`, not mean demand squared, in the lead-time-variance term). -/
def compute_safety_stock (z demand_std_per_period lead_time_periods lead_time_std_periods
    sigma_lt : ℚ) : ℚ :=
  if lead_time_periods ≤ 0 then 0
  else max 0 (pyRound 1 (z * sigma_lt))

/-- Source `compute_rop` (lines 104–114): `max(0.0, round(mu_lt + safety_stock, 1))`
with `mu_lt = demand_mean_per_period * lead_time_periods`. -/
def compute_rop (demand_mean_per_period lead_time_periods safety_stock : ℚ) : ℚ :=
  max 0 (pyRound 1 (demand_mean_per_period * lead_time_periods + safety_stock))

/-- Numpy `np.mean` over a list of rationals (empty list: numpy yields NaN; the
agent only calls it on non-empty forecast lists). -/
def npMean (xs : List ℚ) : ℚ := xs.sum / xs.length

/-- The fields of an `InventoryPolicyResult` row relevant to the claims. -/
structure InventoryPolicyResultRow where
  eoq : ℚ
  rop : ℚ
  safety_stock : ℚ
  avg_demand : ℚ
  demand_std : ℚ
  lead_time_days : ℚ

/-- One loop iteration of `run_inventory_policy` (lines 166–224): the
`InventoryPolicyResult` row persisted for one cost parameter.
`lead_time_days_offer` is the `lead_time_days` of the cheapest offer (or the
`4.0 * 7` default, folded into the same argument); `p50_values` the forecast
`p50`s; `np_std_val` the oracle value of `np.std(p50_values)`; `z`,
`sigma_lt`, `sqrt_2dsh` the oracles of the library calls inside
`compute_safety_stock` and `compute_eoq`. -/
def run_inventory_policy_row (periods_per_year holding_cost_per_unit_period setup_cost : ℚ)
    (lead_time_days_offer : ℚ) (p50_values : List ℚ)
    (np_std_val z sigma_lt sqrt_2dsh : ℚ) : InventoryPolicyResultRow :=
  let h_annual := holding_cost_per_unit_period * periods_per_year
  let lead_time_weeks := lead_time_days_offer / 7
  let demand_mean := npMean p50_values
  let demand_std := np_std_val
  let demand_annual := demand_mean * periods_per_year
  let eoq := compute_eoq demand_annual setup_cost h_annual sqrt_2dsh
  let ss := compute_safety_stock z demand_std lead_time_weeks 0 sigma_lt
  let rop := compute_rop demand_mean lead_time_weeks ss
  { eoq := eoq
    rop := rop
    safety_stock := ss
    avg_demand := pyRound 2 demand_mean
    demand_std := pyRound 2 demand_std
    lead_time_days := pyRound 1 (lead_time_weeks * 7) }

/-! ## Optimizer agent (`backend/agents/optimizer/agent.py`) -/

/-- Default `ship_cost_fraction` of `_build_and_solve` (line 163): 0.08. -/
def shipping_fraction : ℚ := 8/100

/-- The fields of an `OptimisationAllocation` row relevant to the claims. -/
structure OptimisationAllocationRow where
  qty : ℚ
  unit_cost : ℚ
  ship_cost : ℚ
  total_cost : ℚ

/-- The allocation built by `_build_and_solve` (lines 326–341) from a decision
variable `x[(pid, sid, lid)]` whose solved value `qty_val` passed the
`> 0.5` test, for an offer with price `price`; `run_optimisation`
(lines 422–433) persists exactly these fields on `OptimisationAllocation`. -/
def mkAllocation (price qty_val : ℚ) : OptimisationAllocationRow :=
  let proc := price * qty_val
  let ship := price * shipping_fraction * qty_val
  { qty := pyRound 1 qty_val
    unit_cost := price
    ship_cost := pyRound 2 (price * shipping_fraction)
    total_cost := pyRound 2 (proc + ship) }

/-! ## Stage-runner error discipline (shared by all four agents) -/

/-- The committed database state seen by one stage: its run record's status
and the stage's result rows (of any payload type `α`). -/
structure StageDB (α : Type) where
  status : String
  rows : List α

/-- A SQLAlchemy session over `StageDB`: committed state plus pending
(uncommitted) result-row inserts and a pending run-status assignment. -/
structure StageSession (α : Type) where
  committed : StageDB α
  pendingRows : List α
  pendingStatus : Option String

/-- Session `db.add(row)`: stage result inserts are pending until commit. -/
def sessAdd {α : Type} (s : StageSession α) (w : α) : StageSession α :=
  { s with pendingRows := s.pendingRows ++ [w] }

/-- Assignment `run.status = st`: a pending attribute change on the run record. -/
def sessSetStatus {α : Type} (s : StageSession α) (st : String) : StageSession α :=
  { s with pendingStatus := some st }

/-- Session `db.commit()`: apply all pending changes to the committed state. -/
def sessCommit {α : Type} (s : StageSession α) : StageSession α :=
  { committed := { status := s.pendingStatus.getD s.committed.status
                   rows := s.committed.rows ++ s.pendingRows }
    pendingRows := []
    pendingStatus := none }

/-- Session `db.rollback()`: discard all pending changes. -/
def sessRollback {α : Type} (s : StageSession α) : StageSession α :=
  { s with pendingRows := [], pendingStatus := none }

/-- The common shape of `run_scraper_job` (lines 164–220), `run_forecast`
(lines 207–307), `run_inventory_policy` (lines 158–234) and
`run_optimisation` (lines 391–447) once the run record is resolved:
set status `"running"` and commit; run the stage body, which adds
`bodyWrites` result rows and then either finishes (`bodyError = none`,
committed with status `"done"`/`"optimal"`, abstracted as `doneStatus`) or
raises (`bodyError = some e`: `db.rollback()`, status `"failed"`,
`db.commit()`, re-raise).  Returns the propagated outcome and the final
session. -/
def run_stage {α ε : Type} (doneStatus : String) (s0 : StageSession α)
    (bodyWrites : List α) (bodyError : Option ε) : Except ε Unit × StageSession α :=
  let s1 := sessCommit (sessSetStatus s0 "running")
  let s2 := bodyWrites.foldl sessAdd s1
  match bodyError with
  | none => (Except.ok (), sessCommit (sessSetStatus s2 doneStatus))
  | some e => (Except.error e, sessCommit (sessSetStatus (sessRollback s2) "failed"))

/-! ## Scraper agent (`backend/agents/scraper/agent.py`) -/

/-- A persisted `SupplierOffer`, reduced to the fields the dedup rule reads:
supplier identity (resolved by exact name, `_get_or_create_supplier`),
product, and capture time.  Times are integers in hours. -/
structure OfferRow where
  supplier : String
  product : String
  capturedAt : ℤ
deriving DecidableEq, Repr

/-- The TTL freshness test of lines 181–190: an existing offer blocks
insertion iff `captured_at ≥ now − ttl`. -/
def offerFresh (ttl now : ℤ) (o : OfferRow) : Bool :=
  decide (now - ttl ≤ o.capturedAt)

/-- The dedup query of lines 182–190: is there an offer for the same
(supplier, product) within TTL?  The session autoflushes, so pending inserts
from the same job are visible here. -/
def dedupHit (offers : List OfferRow) (ttl now : ℤ) (supplier product : String) : Bool :=
  offers.any (fun o => o.supplier == supplier && o.product == product && offerFresh ttl now o)

/-- Lines 177–207, one candidate offer: skip when `dedupHit`, else insert a
new `SupplierOffer` (with `captured_at = now`) and count it. -/
def insertCand (ttl now : ℤ) (product : String) (acc : List OfferRow × ℕ)
    (supplier : String) : List OfferRow × ℕ :=
  if dedupHit acc.1 ttl now supplier product then acc
  else (acc.1 ++ [⟨supplier, product, now⟩], acc.2 + 1)

/-- Lines 175–207, one `(sku, source)`: fold the candidates produced for that
source through the dedup/insert step. -/
def processSource (ttl now : ℤ) (product : String) (cands : List String)
    (acc : List OfferRow × ℕ) : List OfferRow × ℕ :=
  cands.foldl (insertCand ttl now product) acc

/-- Lines 169–207, one SKU: unknown SKUs are skipped, otherwise every source
is processed in order. -/
def processSku (known : String → Bool) (cands : String → String → List String)
    (ttl now : ℤ) (sources : List String) (acc : List OfferRow × ℕ)
    (sku : String) : List OfferRow × ℕ :=
  if known sku then
    sources.foldl (fun a src => processSource ttl now sku (cands sku src) a) acc
  else acc

/-- The insertion loop of `run_scraper_job` (lines 167–207) over an explicit
offer store, returning the final store and `offers_collected`.  `known`
models product resolution by SKU (line 171); `cands sku source` the supplier
names of the candidate offers `_simulate_offers_for_sku(sku, source)`
produces — a pure function of `(sku, source)`, since the generator is seeded
by `hash(sku + source)` and therefore deterministic within one process.
`now` models `datetime.utcnow()` during the job. -/
def run_scraper_job (known : String → Bool) (cands : String → String → List String)
    (ttl now : ℤ) (skus sources : List String)
    (offers0 : List OfferRow) : List OfferRow × ℕ :=
  skus.foldl (processSku known cands ttl now sources) (offers0, 0)

/-- Specification predicate: `offers` holds a fresh-at-`now` offer for
`(supplier, product)` — exactly the condition under which the dedup query of
lines 182–190 finds a row and the candidate is skipped. -/
def covered (ttl now : ℤ) (offers : List OfferRow) (supplier product : String) : Prop :=
  ∃ o ∈ offers, o.supplier = supplier ∧ o.product = product ∧ now - ttl ≤ o.capturedAt

/-- Specification predicate: `st` extends `base` by rows inserted at `now`
whose (supplier, product) keys are pairwise distinct. -/
def scraperInv (now : ℤ) (base st : List OfferRow) : Prop :=
  ∃ new, st = base ++ new ∧ (∀ o ∈ new, o.capturedAt = now) ∧
    new.Pairwise (fun a b => ¬(a.supplier = b.supplier ∧ a.product = b.product))

/-! # Theorems -/

/-! ## Rounding infrastructure -/

theorem floor_eq_or_of_bounds (n : ℤ) (q : ℚ) (h1 : (n : ℚ) - 1/2 < q)
    (h2 : q < (n : ℚ) + 1/2) : ⌊q⌋ = n ∨ ⌊q⌋ = n - 1 := by
  have hub : ⌊q⌋ ≤ n := by
    have ha : (⌊q⌋ : ℚ) ≤ q := Int.floor_le q
    have hb : (⌊q⌋ : ℚ) < (n : ℚ) + 1 := by linarith
    exact_mod_cast Int.lt_add_one_iff.mp (by exact_mod_cast hb)
  have hlb : n - 1 ≤ ⌊q⌋ := by
    have hc := Int.lt_floor_add_one q
    have h3 : ((n : ℚ) - 1) < (⌊q⌋ : ℚ) + 1 := by linarith
    have h4 : (n : ℤ) - 1 < ⌊q⌋ + 1 := by exact_mod_cast h3
    omega
  omega

theorem rhe_eq_of_bounds (n : ℤ) (q : ℚ) (h1 : (n : ℚ) - 1/2 < q)
    (h2 : q < (n : ℚ) + 1/2) : rhe q = n := by
  have hfl := floor_eq_or_of_bounds n q h1 h2
  unfold rhe
  split_ifs with ha hb hc
  · rcases hfl with h | h
    · exact h
    · exfalso; rw [h] at ha; push_cast at ha; linarith
  · rcases hfl with h | h
    · exfalso; rw [h] at hb; linarith
    · omega
  · exfalso
    rcases hfl with h | h <;> rw [h] at ha hb <;> push_cast at ha hb <;> linarith
  · exfalso
    rcases hfl with h | h <;> rw [h] at ha hb <;> push_cast at ha hb <;> linarith

theorem abs_rhe_sub_le (q : ℚ) : |(rhe q : ℚ) - q| ≤ 1/2 := by
  have h1 : (⌊q⌋ : ℚ) ≤ q := Int.floor_le q
  have h2 : q < (⌊q⌋ : ℚ) + 1 := Int.lt_floor_add_one q
  unfold rhe
  split_ifs with ha hb hc <;> rw [abs_le] <;> push_cast <;> constructor <;> linarith

theorem rhe_nonneg (q : ℚ) (h : 0 ≤ q) : 0 ≤ rhe q := by
  have h1 : (0 : ℤ) ≤ ⌊q⌋ := Int.floor_nonneg.mpr h
  unfold rhe
  split_ifs <;> omega

theorem le_rhe_of_le (n : ℤ) (q : ℚ) (h : (n : ℚ) ≤ q) : n ≤ rhe q := by
  have h1 : n ≤ ⌊q⌋ := Int.le_floor.mpr h
  unfold rhe
  split_ifs <;> omega

theorem abs_pyRound_sub_le (d : ℕ) (x : ℚ) : |pyRound d x - x| ≤ 1 / (2 * 10 ^ d) := by
  have hp : (0 : ℚ) < 10 ^ d := by positivity
  have hd : pyRound d x - x = ((rhe (x * 10 ^ d) : ℚ) - x * 10 ^ d) / 10 ^ d := by
    unfold pyRound; field_simp; ring
  rw [hd, abs_div, abs_of_pos hp,
    show (1 : ℚ) / (2 * 10 ^ d) = (1/2) / 10 ^ d by ring]
  gcongr
  exact abs_rhe_sub_le _

theorem pyRound_nonneg (d : ℕ) (x : ℚ) (h : 0 ≤ x) : 0 ≤ pyRound d x := by
  have hp : (0 : ℚ) < 10 ^ d := by positivity
  have hh := rhe_nonneg (x * 10 ^ d) (by positivity)
  unfold pyRound
  positivity

theorem pyRound_eq_of_bounds (d : ℕ) (n : ℤ) (x : ℚ)
    (h1 : (n : ℚ) - 1/2 < x * 10 ^ d) (h2 : x * 10 ^ d < (n : ℚ) + 1/2) :
    pyRound d x = n / 10 ^ d := by
  unfold pyRound
  rw [rhe_eq_of_bounds n _ h1 h2]

theorem pyRound_zero (d : ℕ) : pyRound d 0 = 0 := by
  rw [pyRound_eq_of_bounds d 0 0 (by norm_num) (by norm_num)]
  norm_num

/-! ## C8 — WAPE definition -/

/-- C8: for equal-length `actual`/`forecast` arrays, `wape` is
`Σ|a−f| / Σ|a|`, and it is `0` whenever `Σ|a| = 0` (division in ℚ makes the
two clauses consistent: the quotient is `0` exactly when the guard fires). -/
theorem wape_claim (actual forecast : List ℚ) (hlen : actual.length = forecast.length) :
    wape actual forecast =
      (List.zipWith (fun a f => |a - f|) actual forecast).sum /
        (actual.map (fun a => |a|)).sum ∧
    ((actual.map (fun a => |a|)).sum = 0 → wape actual forecast = 0) := by
  unfold wape
  by_cases h : (actual.map (fun a => |a|)).sum = 0
  · simp [h]
  · simp [h]

/-- Witness for `wape_claim`: actual `[1, 2]`, forecast `[1, 3]`. -/
theorem wape_claim_witness :
    wape [1, 2] [1, 3] =
      (List.zipWith (fun a f => |a - f|) [(1 : ℚ), 2] [1, 3]).sum /
        (([1, 2] : List ℚ).map (fun a => |a|)).sum ∧
    ((([1, 2] : List ℚ).map (fun a => |a|)).sum = 0 → wape [1, 2] [1, 3] = 0) :=
  wape_claim [1, 2] [1, 3] (by rfl)

/-! ## C3 — ForecastResult rows satisfy 0 ≤ p50 ≤ p90 -/

theorem arima_std_step_nonneg (u m : ℚ) : 0 ≤ arima_std_step u m := le_max_left 0 _

theorem prophet_std_step_nonneg (u m : ℚ) : 0 ≤ prophet_std_step u m := le_max_left 0 _

/-- C3: every persisted `ForecastResult` row satisfies `0 ≤ p50 ≤ p90`.  The
row stores `persist_p50 p50ᵢ` and `persist_p90 (p90_of p50ᵢ stdᵢ)`
(lines 264–288), for whatever per-step `p50ᵢ` and `stdᵢ` the winning model or
fallback produced.  Every code path yields `stdᵢ ≥ 0`: ARIMA and Prophet
clamp with `np.maximum(0, ·)` (`arima_std_step`, `prophet_std_step`), and the
ETS, naive and refit-exception paths use a numpy/pandas standard deviation.
Under that single fact the invariant holds for arbitrary `p50ᵢ`. -/
theorem forecast_row_p50_le_p90 (p50i stdi : ℚ) (hstd : 0 ≤ stdi) :
    0 ≤ persist_p50 p50i ∧ persist_p50 p50i ≤ persist_p90 (p90_of p50i stdi) := by
  constructor
  · exact le_max_left 0 _
  · unfold persist_p50 persist_p90 p90_of
    have h : p50i ≤ p50i + 128/100 * stdi := by linarith
    exact max_le_max (le_refl 0) h

/-- Witness for `forecast_row_p50_le_p90` at `p50ᵢ = -3`, `stdᵢ = 2`. -/
theorem forecast_row_p50_le_p90_witness :
    0 ≤ persist_p50 (-3) ∧ persist_p50 (-3) ≤ persist_p90 (p90_of (-3) 2) :=
  forecast_row_p50_le_p90 (-3) 2 (by norm_num)

/-! ## C4 — per-step p50/p90 formulas -/

/-- C4 counterexample: the claim states `p90ᵢ = p50ᵢ + 1.2816 · σᵢ`, but
line 265 of the forecast agent uses the coefficient `1.28`.  At
`meanᵢ = 0`, `σᵢ = 1` the persisted `p90` is `1.28`, not `1.2816`. -/
theorem forecast_p90_coefficient_counterexample :
    persist_p90 (p90_of (persist_p50 0) 1) ≠ persist_p50 0 + 12816/10000 * 1 := by
  unfold persist_p50 persist_p90 p90_of
  norm_num

/-- C4 (amended): for every series and future period, the persisted values
satisfy `p50ᵢ = max(0, meanᵢ)` and `p90ᵢ = p50ᵢ + 1.28 · σᵢ` (coefficient
`1.28`, not `1.2816`), where `meanᵢ`, `σᵢ` are the winning model's per-step
forecast mean and standard deviation from the full-series refit (each fit
function already returns `p50 = max(0, mean)`, so the row-level clamp of
lines 287–288 is the identity once `σᵢ ≥ 0`). -/
theorem forecast_p50_p90_formula (mean stdi : ℚ) (hstd : 0 ≤ stdi) :
    persist_p50 (max 0 mean) = max 0 mean ∧
    persist_p90 (p90_of (max 0 mean) stdi) = max 0 mean + 128/100 * stdi := by
  constructor
  · unfold persist_p50
    rw [← max_assoc, max_self]
  · unfold persist_p90 p90_of
    exact max_eq_right (by positivity)

/-- Witness for `forecast_p50_p90_formula` at `mean = -5`, `σ = 3`. -/
theorem forecast_p50_p90_formula_witness :
    persist_p50 (max 0 (-5)) = max 0 (-5) ∧
    persist_p90 (p90_of (max 0 (-5)) 3) = max 0 (-5) + 128/100 * 3 :=
  forecast_p50_p90_formula (-5) 3 (by norm_num)

/-! ## C5 — safety stock -/

theorem compute_safety_stock_nonneg (z σ L σL s : ℚ) :
    0 ≤ compute_safety_stock z σ L σL s := by
  unfold compute_safety_stock
  split_ifs
  · exact le_refl 0
  · exact le_max_left 0 _

/-- C5: for `L > 0`, `compute_safety_stock` returns
`max(0, round(z * sqrt(σ²·L + σ²·σ_L²), 1))` (first conjunct, with `s` the
oracle value of the square root); with deterministic lead time (`σ_L = 0`)
the square root collapses to `σ·√L` (second conjunct, `sL` being any value
with `sL ≥ 0`, `sL² = L`); and for `σ = 50`, `L = 4`, `SL = 0.95`, `σ_L = 0`
the result is within `0.1` of `164.5` (third conjunct; `z` is bracketed by
`1.6448 ≤ z ≤ 1.6449`, which covers `norm.ppf(0.95) ≈ 1.64485`, and the
square root of `50²·4` is exact). -/
theorem safety_stock_claim :
    (∀ z σ L σL s, 0 < L →
      compute_safety_stock z σ L σL s = max 0 (pyRound 1 (z * s))) ∧
    (∀ z σ L σL s sL, 0 ≤ σ → 0 ≤ s → s ^ 2 = σ ^ 2 * L + σ ^ 2 * σL ^ 2 → σL = 0 →
      0 ≤ sL → sL ^ 2 = L → 0 < L →
      compute_safety_stock z σ L σL s = max 0 (pyRound 1 (z * (σ * sL)))) ∧
    (∀ z s, 16448/10000 ≤ z → z ≤ 16449/10000 → 0 ≤ s →
      s ^ 2 = 50 ^ 2 * 4 + 50 ^ 2 * 0 ^ 2 →
      |compute_safety_stock z 50 4 0 s - 1645/10| ≤ 1/10) := by
  have hmain : ∀ z σ L σL s, 0 < L →
      compute_safety_stock z σ L σL s = max 0 (pyRound 1 (z * s)) := by
    intro z σ L σL s hL
    unfold compute_safety_stock
    rw [if_neg (not_le.mpr hL)]
  refine ⟨hmain, ?_, ?_⟩
  · intro z σ L σL s sL hσ hs hs2 hσL hsL hsL2 hL
    have hseq : s = σ * sL := by
      have h1 : s ^ 2 = (σ * sL) ^ 2 := by
        rw [hs2, hσL, show (σ * sL) ^ 2 = σ ^ 2 * sL ^ 2 by ring, hsL2]; ring
      exact (sq_eq_sq hs (by positivity)).mp h1
    rw [hmain z σ L σL s hL, hseq]
  · intro z s hz1 hz2 hs hs2
    have hseq : s = 100 := by
      have h1 : s ^ 2 = (100 : ℚ) ^ 2 := by rw [hs2]; norm_num
      exact (sq_eq_sq hs (by norm_num)).mp h1
    rw [hmain z 50 4 0 s (by norm_num), hseq]
    have hpr : pyRound 1 (z * 100) = ((1645 : ℤ) : ℚ) / 10 ^ 1 := by
      apply pyRound_eq_of_bounds 1 1645 (z * 100) <;> push_cast <;> nlinarith
    rw [hpr]
    rw [max_eq_right (by positivity)]
    rw [show ((1645 : ℤ) : ℚ) / 10 ^ 1 - 1645/10 = 0 by push_cast; ring]
    norm_num

/-- Witness for `safety_stock_claim`, instantiating all three conjuncts; the
third at `z = 1.64485`, `s = 100`. -/
theorem safety_stock_claim_witness :
    compute_safety_stock 2 50 4 0 7 = max 0 (pyRound 1 (2 * 7)) ∧
    compute_safety_stock 2 50 4 0 100 = max 0 (pyRound 1 (2 * (50 * 2))) ∧
    |compute_safety_stock (164485/100000) 50 4 0 100 - 1645/10| ≤ 1/10 :=
  ⟨safety_stock_claim.1 2 50 4 0 7 (by norm_num),
   safety_stock_claim.2.1 2 50 4 0 100 2 (by norm_num) (by norm_num) (by norm_num)
     (by norm_num) (by norm_num) (by norm_num) (by norm_num),
   safety_stock_claim.2.2 (164485/100000) 100 (by norm_num) (by norm_num) (by norm_num)
     (by norm_num)⟩

/-! ## C6 — EOQ -/

/-- C6: `compute_eoq` returns `max(1, round(sqrt(2DS/H), 1))` when `D > 0`
and `H > 0` (first conjunct, `s` being the oracle square-root value), and
falls back to `max(1, D)` when `H ≤ 0` or `D ≤ 0` (second conjunct).  With
`D = 10000`, `S = 100`, `H = 5` (so `2DS/H = 400000`) the result is `632.5`
for any square-root value accurate to `|s² − 400000| ≤ 1` (third conjunct),
and `D = 0` yields `1` (fourth conjunct). -/
theorem eoq_claim :
    (∀ D S H s, 0 < D → 0 < H → compute_eoq D S H s = max 1 (pyRound 1 s)) ∧
    (∀ D S H s, H ≤ 0 ∨ D ≤ 0 → compute_eoq D S H s = max 1 D) ∧
    (∀ s, 0 ≤ s → 399999 ≤ s ^ 2 → s ^ 2 ≤ 400001 →
      compute_eoq 10000 100 5 s = 6325/10) ∧
    (∀ S H s, compute_eoq 0 S H s = 1) := by
  have hmain : ∀ D S H s, 0 < D → 0 < H →
      compute_eoq D S H s = max 1 (pyRound 1 s) := by
    intro D S H s hD hH
    unfold compute_eoq
    rw [if_neg (by push_neg; exact ⟨hH, hD⟩)]
  refine ⟨hmain, ?_, ?_, ?_⟩
  · intro D S H s hcond
    unfold compute_eoq
    rw [if_pos hcond]
  · intro s hs hlo hhi
    have hup : s < 6325/10 := by nlinarith
    have hdn : 63245/100 < s := by nlinarith
    rw [hmain 10000 100 5 s (by norm_num) (by norm_num)]
    have hpr : pyRound 1 s = ((6325 : ℤ) : ℚ) / 10 ^ 1 := by
      apply pyRound_eq_of_bounds 1 6325 s <;> push_cast <;> nlinarith
    rw [hpr, max_eq_right (by norm_num)]
    push_cast
    norm_num
  · intro S H s
    unfold compute_eoq
    rw [if_pos (Or.inr le_rfl)]
    exact max_eq_left (by norm_num)

/-- Witness for `eoq_claim`, instantiating all four conjuncts; the third at
`s = 632.4555` (whose square is `399999.959…`). -/
theorem eoq_claim_witness :
    compute_eoq 3 4 5 (49/10) = max 1 (pyRound 1 (49/10)) ∧
    compute_eoq 7 1 (-2) 0 = max 1 7 ∧
    compute_eoq 10000 100 5 (6324555/10000) = 6325/10 ∧
    compute_eoq 0 9 9 0 = 1 :=
  ⟨eoq_claim.1 3 4 5 (49/10) (by norm_num) (by norm_num),
   eoq_claim.2.1 7 1 (-2) 0 (Or.inl (by norm_num)),
   eoq_claim.2.2.1 (6324555/10000) (by norm_num) (by norm_num) (by norm_num),
   eoq_claim.2.2.2 9 9 0⟩

/-! ## C1 — reorder point vs persisted avg_demand -/

/-- C1 counterexample: the claim measures `rop` against the *persisted*
`avg_demand`, which is the mean rounded to 2 decimals (line 216), while
`compute_rop` uses the unrounded mean (line 206).  With a single forecast
`p50 = 0.004` (mean `0.004`, persisted `avg_demand = 0.0`), a cheapest offer
with `lead_time_days = 700` (`L = 100` periods), `service_level = 0.5`
(`z = 0`, σ = 0, so `safety_stock = 0`), the persisted `rop` is
`round(0.004·100, 1) = 0.4` but `avg_demand·L + safety_stock = 0`, so the
stated `≤ 0.1` bound fails. -/
theorem inventory_rop_claim_counterexample :
    ¬ (|(run_inventory_policy_row 52 0 1 700 [1/250] 0 0 0 0).rop -
        ((run_inventory_policy_row 52 0 1 700 [1/250] 0 0 0 0).avg_demand * (700/7) +
         (run_inventory_policy_row 52 0 1 700 [1/250] 0 0 0 0).safety_stock)| ≤ 1/10) := by
  have hmean : npMean [1/250] = 1/250 := by
    unfold npMean; simp
  have hss : compute_safety_stock 0 0 (700/7) 0 0 = 0 := by
    unfold compute_safety_stock
    rw [if_neg (by norm_num)]
    rw [show (0 : ℚ) * 0 = 0 by ring, pyRound_zero]
    norm_num
  have hrop : compute_rop (1/250) (700/7) 0 = 2/5 := by
    unfold compute_rop
    rw [show (1/250 : ℚ) * (700/7) + 0 = 2/5 by norm_num]
    rw [pyRound_eq_of_bounds 1 4 _ (by norm_num) (by norm_num)]
    norm_num
  have havg : pyRound 2 (1/250 : ℚ) = 0 := by
    rw [pyRound_eq_of_bounds 2 0 _ (by norm_num) (by norm_num)]; norm_num
  simp only [run_inventory_policy_row, hmean, hss, hrop, havg]
  rw [not_le, show (2/5 : ℚ) - (0 * (700/7) + 0) = 2/5 by norm_num,
    abs_of_pos (by norm_num : (0 : ℚ) < 2/5)]
  norm_num

/-- C1 (amended): for every `InventoryPolicyResult` row, with `μ` the
*unrounded* mean of the forecast `p50` values and
`L = lead_time_days / 7`, `|rop − (μ·L + safety_stock)| ≤ 0.1` (indeed
`≤ 0.05`, one-decimal rounding).  The persisted `avg_demand` is `μ` rounded
to 2 decimals, so against the persisted value the bound only holds with an
extra `0.005·L` of slack, which exceeds `0.1` for long lead times — the
counterexample above.  Hypotheses: the offer lead time and the forecast mean
are nonnegative (persisted `p50`s are `≥ 0`). -/
theorem inventory_rop_within_rounding (ppy hold setup ltd : ℚ) (p50s : List ℚ)
    (stdv z slt s2d : ℚ) (hltd : 0 ≤ ltd) (hmean : 0 ≤ npMean p50s) :
    |(run_inventory_policy_row ppy hold setup ltd p50s stdv z slt s2d).rop -
      (npMean p50s * (ltd / 7) +
       (run_inventory_policy_row ppy hold setup ltd p50s stdv z slt s2d).safety_stock)| ≤
      1/10 := by
  simp only [run_inventory_policy_row, compute_rop]
  have hss : 0 ≤ compute_safety_stock z stdv (ltd / 7) 0 slt :=
    compute_safety_stock_nonneg z stdv (ltd / 7) 0 slt
  have hx : 0 ≤ npMean p50s * (ltd / 7) + compute_safety_stock z stdv (ltd / 7) 0 slt :=
    add_nonneg (mul_nonneg hmean (div_nonneg hltd (by norm_num))) hss
  rw [max_eq_right (pyRound_nonneg 1 _ hx)]
  have h := abs_pyRound_sub_le 1
    (npMean p50s * (ltd / 7) + compute_safety_stock z stdv (ltd / 7) 0 slt)
  norm_num at h ⊢
  linarith

/-- Witness for `inventory_rop_within_rounding` at a one-element forecast. -/
theorem inventory_rop_within_rounding_witness :
    |(run_inventory_policy_row 52 1 1 7 [2] 0 0 0 0).rop -
      (npMean [2] * (7 / 7) +
       (run_inventory_policy_row 52 1 1 7 [2] 0 0 0 0).safety_stock)| ≤ 1/10 :=
  inventory_rop_within_rounding 52 1 1 7 [2] 0 0 0 0 (by norm_num)
    (by norm_num [npMean])

/-! ## C2 — allocation total cost -/

/-- C2 counterexample: `total_cost` is computed from the *unrounded* solved
quantity (lines 328–340), while the persisted `qty` is rounded to 1 decimal
(line 335).  At `price = 10`, solved value `qty_val = 100.04 > 0.5`:
persisted `qty = 100.0`, `total_cost = round(10·100.04·1.08, 2) = 1080.43`,
but `qty·unit_cost·1.08 = 1080.00`, off by `0.43 > 0.01`. -/
theorem allocation_total_cost_counterexample :
    (1/2 : ℚ) < 10004/100 ∧
    ¬ (|(mkAllocation 10 (10004/100)).total_cost -
        (mkAllocation 10 (10004/100)).qty * (mkAllocation 10 (10004/100)).unit_cost *
          (1 + shipping_fraction)| ≤ 1/100) := by
  constructor
  · norm_num
  · have hq : pyRound 1 (10004/100 : ℚ) = 100 := by
      rw [pyRound_eq_of_bounds 1 1000 _ (by norm_num) (by norm_num)]; norm_num
    have ht : pyRound 2 (10 * (10004/100) + 10 * shipping_fraction * (10004/100) : ℚ) =
        108043/100 := by
      rw [show (10 * (10004/100) + 10 * shipping_fraction * (10004/100) : ℚ) =
        1080432/1000 by unfold shipping_fraction; norm_num]
      rw [pyRound_eq_of_bounds 2 108043 _ (by norm_num) (by norm_num)]; norm_num
    simp only [mkAllocation, hq, ht]
    unfold shipping_fraction
    rw [abs_le]
    push_neg
    intro hcontra
    norm_num

/-- C2 (amended): for every persisted `OptimisationAllocation` — built from a
decision variable with solved value `qty_val > 0.5` — the persisted `qty` is
positive and `|total_cost − qty_val · unit_cost · (1 + shipping_fraction)| ≤
0.01` (indeed `≤ 0.005`), with `qty_val` the *unrounded* solved value.
Measured against the persisted (1-decimal-rounded) `qty` instead, the bound
can be off by up to `0.05 · unit_cost · 1.08` — the counterexample above. -/
theorem allocation_total_cost_formula (price qty_val : ℚ) (h : 1/2 < qty_val) :
    |(mkAllocation price qty_val).total_cost -
      qty_val * (mkAllocation price qty_val).unit_cost * (1 + shipping_fraction)| ≤ 1/100 ∧
    0 < (mkAllocation price qty_val).qty := by
  constructor
  · simp only [mkAllocation]
    rw [show price * qty_val + price * shipping_fraction * qty_val =
      qty_val * price * (1 + shipping_fraction) by ring]
    have hb := abs_pyRound_sub_le 2 (qty_val * price * (1 + shipping_fraction))
    norm_num at hb ⊢
    linarith
  · simp only [mkAllocation]
    unfold pyRound
    have h5 : (5 : ℤ) ≤ rhe (qty_val * 10 ^ 1) := le_rhe_of_le 5 _ (by push_cast; linarith)
    have h5q : (5 : ℚ) ≤ (rhe (qty_val * 10 ^ 1) : ℚ) := by exact_mod_cast h5
    have hp : (0 : ℚ) < 10 ^ 1 := by norm_num
    exact div_pos (by linarith) hp

/-- Witness for `allocation_total_cost_formula` at `price = 10`,
`qty_val = 3`. -/
theorem allocation_total_cost_formula_witness :
    |(mkAllocation 10 3).total_cost -
      3 * (mkAllocation 10 3).unit_cost * (1 + shipping_fraction)| ≤ 1/100 ∧
    0 < (mkAllocation 10 3).qty :=
  allocation_total_cost_formula 10 3 (by norm_num)

/-! ## C9 — stage failure semantics -/

theorem foldl_sessAdd_parts {α : Type} (ws : List α) (s : StageSession α) :
    (ws.foldl sessAdd s).committed = s.committed ∧
    (ws.foldl sessAdd s).pendingRows = s.pendingRows ++ ws ∧
    (ws.foldl sessAdd s).pendingStatus = s.pendingStatus := by
  induction ws generalizing s with
  | nil => simp
  | cons w ws ih =>
    simp only [List.foldl_cons]
    have h := ih (sessAdd s w)
    simpa [sessAdd, List.append_assoc] using h

/-- C9: if the stage body raises after the run record is resolved, the stage
rolls back its in-flight result writes, sets the run record's status to
`"failed"`, commits exactly that change, and re-raises: the committed state
keeps only the rows that were already there, whatever the body had written
(`ws`) is discarded, and the outcome is the propagated exception.
The hypothesis is that the stage starts on a clean session (no pending
inserts), as every caller does. -/
theorem stage_failure_semantics {α ε : Type} (doneStatus : String) (s0 : StageSession α)
    (ws : List α) (e : ε) (hpend : s0.pendingRows = []) :
    run_stage doneStatus s0 ws (some e) =
      (Except.error e, ⟨⟨"failed", s0.committed.rows⟩, [], none⟩) := by
  obtain ⟨h1, h2, h3⟩ := foldl_sessAdd_parts ws (sessCommit (sessSetStatus s0 "running"))
  unfold run_stage
  simp only [sessCommit, sessSetStatus, sessRollback, Option.getD] at h1 ⊢
  rw [h1]
  simp [hpend]

/-- Witness for `stage_failure_semantics`: a session holding one committed
row, a body that wrote two rows and then raised. -/
theorem stage_failure_semantics_witness :
    run_stage "done" (⟨⟨"pending", [3]⟩, [], none⟩ : StageSession ℚ) [7, 8]
        (some "boom") =
      (Except.error "boom", ⟨⟨"failed", [3]⟩, [], none⟩) :=
  stage_failure_semantics "done" ⟨⟨"pending", [3]⟩, [], none⟩ [7, 8] "boom" rfl

/-! ## Scraper infrastructure (C7, C10) -/

theorem dedupHit_iff (offers : List OfferRow) (ttl now : ℤ) (sup p : String) :
    dedupHit offers ttl now sup p = true ↔ covered ttl now offers sup p := by
  unfold dedupHit offerFresh covered
  simp [List.any_eq_true, and_assoc]

theorem scraperInv_refl (now : ℤ) (base : List OfferRow) : scraperInv now base base :=
  ⟨[], by simp, by simp, List.Pairwise.nil⟩

theorem covered_mono (ttl now : ℤ) (base ext : List OfferRow) (sup p : String)
    (h : covered ttl now base sup p) : covered ttl now (base ++ ext) sup p := by
  obtain ⟨o, ho, hrest⟩ := h
  exact ⟨o, List.mem_append_left _ ho, hrest⟩

theorem insertCand_inv (ttl now : ℤ) (base : List OfferRow) (p sup : String)
    (acc : List OfferRow × ℕ) (httl : 0 ≤ ttl) (hinv : scraperInv now base acc.1) :
    scraperInv now base (insertCand ttl now p acc sup).1 := by
  unfold insertCand
  split_ifs with hhit
  · exact hinv
  · obtain ⟨new, hsplit, hcap, hpw⟩ := hinv
    refine ⟨new ++ [⟨sup, p, now⟩], ?_, ?_, ?_⟩
    · simp [hsplit, List.append_assoc]
    · intro o ho
      rcases List.mem_append.mp ho with h | h
      · exact hcap o h
      · rcases List.mem_singleton.mp h with rfl
        rfl
    · rw [List.pairwise_append]
      refine ⟨hpw, List.pairwise_singleton _ _, ?_⟩
      intro a ha b hb
      rcases List.mem_singleton.mp hb with rfl
      rintro ⟨hs, hp2⟩
      apply hhit
      rw [dedupHit_iff]
      refine ⟨a, ?_, hs, hp2, ?_⟩
      · rw [hsplit]; exact List.mem_append_right _ ha
      · rw [hcap a ha]; linarith

theorem insertCand_covers (ttl now : ℤ) (p sup : String) (acc : List OfferRow × ℕ)
    (httl : 0 ≤ ttl) : covered ttl now (insertCand ttl now p acc sup).1 sup p := by
  unfold insertCand
  split_ifs with hhit
  · exact (dedupHit_iff _ _ _ _ _).mp hhit
  · exact ⟨⟨sup, p, now⟩, List.mem_append_right _ (List.mem_singleton_self _), rfl, rfl,
      by linarith⟩

theorem insertCand_of_covered (ttl now : ℤ) (p sup : String) (acc : List OfferRow × ℕ)
    (h : covered ttl now acc.1 sup p) : insertCand ttl now p acc sup = acc := by
  unfold insertCand
  rw [if_pos ((dedupHit_iff acc.1 ttl now sup p).mpr h)]

theorem processSource_inv (ttl now : ℤ) (base : List OfferRow) (p : String)
    (cs : List String) (httl : 0 ≤ ttl) :
    ∀ acc : List OfferRow × ℕ, scraperInv now base acc.1 →
      scraperInv now base (processSource ttl now p cs acc).1 := by
  induction cs with
  | nil => intro acc h; exact h
  | cons c cs ih =>
    intro acc h
    have hstep : processSource ttl now p (c :: cs) acc =
        processSource ttl now p cs (insertCand ttl now p acc c) := rfl
    rw [hstep]
    exact ih _ (insertCand_inv ttl now base p c acc httl h)

theorem processSource_extends (ttl now : ℤ) (p : String) (cs : List String)
    (acc : List OfferRow × ℕ) (httl : 0 ≤ ttl) :
    ∃ ext, (processSource ttl now p cs acc).1 = acc.1 ++ ext := by
  obtain ⟨new, h, -, -⟩ :=
    processSource_inv ttl now acc.1 p cs httl acc (scraperInv_refl now acc.1)
  exact ⟨new, h⟩

theorem processSource_covers (ttl now : ℤ) (p c : String) (cs : List String)
    (httl : 0 ≤ ttl) :
    ∀ acc : List OfferRow × ℕ, c ∈ cs →
      covered ttl now (processSource ttl now p cs acc).1 c p := by
  induction cs with
  | nil => intro acc hc; cases hc
  | cons c' cs ih =>
    intro acc hc
    have hstep : processSource ttl now p (c' :: cs) acc =
        processSource ttl now p cs (insertCand ttl now p acc c') := rfl
    rw [hstep]
    rcases List.mem_cons.mp hc with rfl | hmem
    · obtain ⟨ext, hext⟩ :=
        processSource_extends ttl now p cs (insertCand ttl now p acc c) httl
      rw [hext]
      exact covered_mono ttl now _ ext c p (insertCand_covers ttl now p c acc httl)
    · exact ih _ hmem

theorem processSource_of_covered (ttl now : ℤ) (p : String) (cs : List String) :
    ∀ acc : List OfferRow × ℕ, (∀ c ∈ cs, covered ttl now acc.1 c p) →
      processSource ttl now p cs acc = acc := by
  induction cs with
  | nil => intro acc _; rfl
  | cons c' cs ih =>
    intro acc h
    have hstep : processSource ttl now p (c' :: cs) acc =
        processSource ttl now p cs (insertCand ttl now p acc c') := rfl
    rw [hstep, insertCand_of_covered ttl now p c' acc (h c' (List.mem_cons_self c' cs))]
    exact ih acc (fun c hc => h c (List.mem_cons_of_mem _ hc))

theorem processSources_inv (cands : String → String → List String) (ttl now : ℤ)
    (base : List OfferRow) (sku : String) (sources : List String) (httl : 0 ≤ ttl) :
    ∀ acc : List OfferRow × ℕ, scraperInv now base acc.1 →
      scraperInv now base
        ((sources.foldl (fun a src => processSource ttl now sku (cands sku src) a) acc)).1 := by
  induction sources with
  | nil => intro acc h; exact h
  | cons s ss ih =>
    intro acc h
    have hstep : ((s :: ss).foldl (fun a src => processSource ttl now sku (cands sku src) a) acc) =
        (ss.foldl (fun a src => processSource ttl now sku (cands sku src) a)
          (processSource ttl now sku (cands sku s) acc)) := rfl
    rw [hstep]
    exact ih _ (processSource_inv ttl now base sku (cands sku s) httl acc h)

theorem processSources_extends (cands : String → String → List String) (ttl now : ℤ)
    (sku : String) (sources : List String) (acc : List OfferRow × ℕ) (httl : 0 ≤ ttl) :
    ∃ ext, ((sources.foldl (fun a src => processSource ttl now sku (cands sku src) a) acc)).1 =
      acc.1 ++ ext := by
  obtain ⟨new, h, -, -⟩ :=
    processSources_inv cands ttl now acc.1 sku sources httl acc (scraperInv_refl now acc.1)
  exact ⟨new, h⟩

theorem processSources_covers (cands : String → String → List String) (ttl now : ℤ)
    (sku src c : String) (sources : List String) (httl : 0 ≤ ttl) :
    ∀ acc : List OfferRow × ℕ, src ∈ sources → c ∈ cands sku src →
      covered ttl now
        ((sources.foldl (fun a s => processSource ttl now sku (cands sku s) a) acc)).1
        c sku := by
  induction sources with
  | nil => intro acc h _; cases h
  | cons s ss ih =>
    intro acc hsrc hc
    have hstep : ((s :: ss).foldl (fun a s' => processSource ttl now sku (cands sku s') a) acc) =
        (ss.foldl (fun a s' => processSource ttl now sku (cands sku s') a)
          (processSource ttl now sku (cands sku s) acc)) := rfl
    rw [hstep]
    rcases List.mem_cons.mp hsrc with rfl | hmem
    · obtain ⟨ext, hext⟩ := processSources_extends cands ttl now sku ss
        (processSource ttl now sku (cands sku src) acc) httl
      rw [hext]
      exact covered_mono ttl now _ ext c sku
        (processSource_covers ttl now sku c (cands sku src) httl acc hc)
    · exact ih _ hmem hc

theorem processSources_of_covered (cands : String → String → List String) (ttl now : ℤ)
    (sku : String) (sources : List String) :
    ∀ acc : List OfferRow × ℕ,
      (∀ src ∈ sources, ∀ c ∈ cands sku src, covered ttl now acc.1 c sku) →
      (sources.foldl (fun a src => processSource ttl now sku (cands sku src) a) acc) = acc := by
  induction sources with
  | nil => intro acc _; rfl
  | cons s ss ih =>
    intro acc h
    have hstep : ((s :: ss).foldl (fun a src => processSource ttl now sku (cands sku src) a) acc) =
        (ss.foldl (fun a src => processSource ttl now sku (cands sku src) a)
          (processSource ttl now sku (cands sku s) acc)) := rfl
    rw [hstep,
      processSource_of_covered ttl now sku (cands sku s) acc (h s (List.mem_cons_self s ss))]
    exact ih acc (fun src hsrc => h src (List.mem_cons_of_mem _ hsrc))

theorem processSku_inv (known : String → Bool) (cands : String → String → List String)
    (ttl now : ℤ) (base : List OfferRow) (sources : List String) (sku : String)
    (httl : 0 ≤ ttl) :
    ∀ acc : List OfferRow × ℕ, scraperInv now base acc.1 →
      scraperInv now base (processSku known cands ttl now sources acc sku).1 := by
  intro acc h
  unfold processSku
  split_ifs with hk
  · exact processSources_inv cands ttl now base sku sources httl acc h
  · exact h

theorem processSku_of_covered (known : String → Bool) (cands : String → String → List String)
    (ttl now : ℤ) (sources : List String) (sku : String) (acc : List OfferRow × ℕ)
    (h : known sku = true → ∀ src ∈ sources, ∀ c ∈ cands sku src, covered ttl now acc.1 c sku) :
    processSku known cands ttl now sources acc sku = acc := by
  unfold processSku
  split_ifs with hk
  · exact processSources_of_covered cands ttl now sku sources acc (h hk)
  · rfl

theorem skusFold_inv (known : String → Bool) (cands : String → String → List String)
    (ttl now : ℤ) (base : List OfferRow) (sources skus : List String) (httl : 0 ≤ ttl) :
    ∀ acc : List OfferRow × ℕ, scraperInv now base acc.1 →
      scraperInv now base ((skus.foldl (processSku known cands ttl now sources) acc)).1 := by
  induction skus with
  | nil => intro acc h; exact h
  | cons sk sks ih =>
    intro acc h
    have hstep : ((sk :: sks).foldl (processSku known cands ttl now sources) acc) =
        (sks.foldl (processSku known cands ttl now sources)
          (processSku known cands ttl now sources acc sk)) := rfl
    rw [hstep]
    exact ih _ (processSku_inv known cands ttl now base sources sk httl acc h)

theorem skusFold_extends (known : String → Bool) (cands : String → String → List String)
    (ttl now : ℤ) (sources skus : List String) (acc : List OfferRow × ℕ) (httl : 0 ≤ ttl) :
    ∃ ext, ((skus.foldl (processSku known cands ttl now sources) acc)).1 = acc.1 ++ ext := by
  obtain ⟨new, h, -, -⟩ :=
    skusFold_inv known cands ttl now acc.1 sources skus httl acc (scraperInv_refl now acc.1)
  exact ⟨new, h⟩

theorem run_scraper_job_inv (known : String → Bool) (cands : String → String → List String)
    (ttl now : ℤ) (skus sources : List String) (offers0 : List OfferRow) (httl : 0 ≤ ttl) :
    scraperInv now offers0 (run_scraper_job known cands ttl now skus sources offers0).1 := by
  unfold run_scraper_job
  exact skusFold_inv known cands ttl now offers0 sources skus httl (offers0, 0)
    (scraperInv_refl now offers0)

theorem run_scraper_job_covers (known : String → Bool) (cands : String → String → List String)
    (ttl now : ℤ) (sources : List String) (sku src c : String) (httl : 0 ≤ ttl) :
    ∀ (skus : List String) (acc : List OfferRow × ℕ), sku ∈ skus → known sku = true →
      src ∈ sources → c ∈ cands sku src →
      covered ttl now ((skus.foldl (processSku known cands ttl now sources) acc)).1 c sku := by
  intro skus
  induction skus with
  | nil => intro acc h; cases h
  | cons sk sks ih =>
    intro acc hsku hk hsrc hc
    have hstep : ((sk :: sks).foldl (processSku known cands ttl now sources) acc) =
        (sks.foldl (processSku known cands ttl now sources)
          (processSku known cands ttl now sources acc sk)) := rfl
    rw [hstep]
    rcases List.mem_cons.mp hsku with rfl | hmem
    · have h1 : covered ttl now (processSku known cands ttl now sources acc sku).1 c sku := by
        unfold processSku
        rw [if_pos hk]
        exact processSources_covers cands ttl now sku src c sources httl acc hsrc hc
      obtain ⟨ext, hext⟩ := skusFold_extends known cands ttl now sources sks
        (processSku known cands ttl now sources acc sku) httl
      rw [hext]
      exact covered_mono ttl now _ ext c sku h1
    · exact ih _ hmem hk hsrc hc

theorem run_scraper_job_of_all_covered (known : String → Bool)
    (cands : String → String → List String) (ttl now : ℤ) (skus sources : List String)
    (offers1 : List OfferRow)
    (hcov : ∀ sku ∈ skus, known sku = true →
      ∀ src ∈ sources, ∀ c ∈ cands sku src, covered ttl now offers1 c sku) :
    run_scraper_job known cands ttl now skus sources offers1 = (offers1, 0) := by
  unfold run_scraper_job
  induction skus with
  | nil => rfl
  | cons sk sks ih =>
    have hstep : ((sk :: sks).foldl (processSku known cands ttl now sources) (offers1, 0)) =
        (sks.foldl (processSku known cands ttl now sources)
          (processSku known cands ttl now sources (offers1, 0) sk)) := rfl
    rw [hstep, processSku_of_covered known cands ttl now sources sk (offers1, 0)
      (fun hk => hcov sk (List.mem_cons_self sk sks) hk)]
    exact ih (fun sku hm => hcov sku (List.mem_cons_of_mem _ hm))

/-! ## C7 — re-running the scraper within TTL -/

/-- C7 counterexample: the claim fails when a *pre-existing* offer suppressed
an insertion in the first run and expires before the second run.  Store:
one offer for the pair the source produces, captured at `t = 76`, exactly at
the TTL-24 boundary of the first run at `t1 = 100` — so the first job
completes successfully with `offers_collected = 0`.  The second job runs at
`t2 = 101` (one hour later, well within TTL of the first), finds the old
offer stale (`101 − 24 = 77 > 76`), inserts, and reports
`offers_collected = 1`, not `0`. -/
theorem scraper_rerun_counterexample :
    (run_scraper_job (fun _ => true) (fun _ _ => ["S"]) 24 100 ["A"] ["s"]
        [⟨"S", "A", 76⟩]).2 = 0 ∧
    (run_scraper_job (fun _ => true) (fun _ _ => ["S"]) 24 101 ["A"] ["s"]
        (run_scraper_job (fun _ => true) (fun _ _ => ["S"]) 24 100 ["A"] ["s"]
          [⟨"S", "A", 76⟩]).1).2 = 1 := by
  constructor
  · decide
  · decide

/-- C7 (amended): if `run_scraper_job` completes successfully and is executed
a second time within TTL hours with the same SKU list and sources (same
process, so the synthetic candidate generator `cands` is the same
deterministic function), the second job inserts no new `SupplierOffer` rows
and reports `offers_collected = 0`, *provided* every pre-existing offer that
was fresh at the first run's time is still fresh at the second run's time
(`hkeep`) — in particular whenever the store held no offers for the scraped
pairs before the first run.  Without that proviso the counterexample above
applies.  `httl`: the TTL is nonnegative (contract, default 24); `ht2`: the
second run is within TTL of the first. -/
theorem scraper_rerun_within_ttl (known : String → Bool)
    (cands : String → String → List String) (ttl t1 t2 : ℤ) (skus sources : List String)
    (offers0 : List OfferRow) (httl : 0 ≤ ttl) (ht2 : t2 ≤ t1 + ttl)
    (hkeep : ∀ o ∈ offers0, t1 - ttl ≤ o.capturedAt → t2 - ttl ≤ o.capturedAt) :
    run_scraper_job known cands ttl t2 skus sources
        (run_scraper_job known cands ttl t1 skus sources offers0).1 =
      ((run_scraper_job known cands ttl t1 skus sources offers0).1, 0) := by
  obtain ⟨new, hsplit, hcap, -⟩ :=
    run_scraper_job_inv known cands ttl t1 skus sources offers0 httl
  apply run_scraper_job_of_all_covered
  intro sku hsku hk src hsrc c hc
  have hcov1 : covered ttl t1 (run_scraper_job known cands ttl t1 skus sources offers0).1
      c sku := by
    unfold run_scraper_job
    exact run_scraper_job_covers known cands ttl t1 sources sku src c httl skus
      (offers0, 0) hsku hk hsrc hc
  obtain ⟨o, ho, hosup, hoprod, hofresh⟩ := hcov1
  refine ⟨o, ho, hosup, hoprod, ?_⟩
  rw [hsplit] at ho
  rcases List.mem_append.mp ho with hbase | hnew
  · exact hkeep o hbase hofresh
  · rw [hcap o hnew]; linarith

/-- Witness for `scraper_rerun_within_ttl`: one SKU, one source, one
candidate supplier, empty initial store, runs at `t = 100` and `t = 101`
with TTL 24. -/
theorem scraper_rerun_within_ttl_witness :
    run_scraper_job (fun _ => true) (fun _ _ => ["S"]) 24 101 ["A"] ["s"]
        (run_scraper_job (fun _ => true) (fun _ _ => ["S"]) 24 100 ["A"] ["s"] []).1 =
      ((run_scraper_job (fun _ => true) (fun _ _ => ["S"]) 24 100 ["A"] ["s"] []).1, 0) :=
  scraper_rerun_within_ttl (fun _ => true) (fun _ _ => ["S"]) 24 100 101 ["A"] ["s"] []
    (by norm_num) (by norm_num) (by simp)

/-! ## C10 — at most one offer per (supplier, product) per job -/

/-- C10: within a single `run_scraper_job` invocation, at most one
`SupplierOffer` row is inserted per (supplier, product) pair: the rows added
by the job all carry `captured_at = now`, and their (supplier, product) keys
are pairwise distinct — once a candidate is inserted, the TTL dedup check
(which sees earlier pending inserts through session autoflush) blocks every
later candidate with the same key.  `httl`: the TTL is nonnegative, so a
just-inserted offer is fresh for the remainder of the job. -/
theorem scraper_one_insert_per_pair (known : String → Bool)
    (cands : String → String → List String) (ttl now : ℤ) (skus sources : List String)
    (offers0 : List OfferRow) (httl : 0 ≤ ttl) :
    ∃ new, (run_scraper_job known cands ttl now skus sources offers0).1 = offers0 ++ new ∧
      (∀ o ∈ new, o.capturedAt = now) ∧
      new.Pairwise (fun a b => ¬(a.supplier = b.supplier ∧ a.product = b.product)) :=
  run_scraper_job_inv known cands ttl now skus sources offers0 httl

/-- Witness for `scraper_one_insert_per_pair`: a job whose source names the
same supplier twice for the same SKU. -/
theorem scraper_one_insert_per_pair_witness :
    ∃ new, (run_scraper_job (fun _ => true) (fun _ _ => ["S", "S"]) 24 100 ["A"] ["s"]
        []).1 = [] ++ new ∧
      (∀ o ∈ new, o.capturedAt = 100) ∧
      new.Pairwise (fun a b => ¬(a.supplier = b.supplier ∧ a.product = b.product)) :=
  scraper_one_insert_per_pair (fun _ => true) (fun _ _ => ["S", "S"]) 24 100 ["A"] ["s"] []
    (by norm_num)
